import Mathlib

/-!
Shallow embedding of `src/math/vector.h` (namespace `nuts::math`) from the
`nuts` repository, together with theorems settling the frozen claims about it.

The C++ type `vector<T, Dimension>` stores `std::array<T, Dimension> data_`.
We model it as a length-indexed list.  Cross-scalar-type conversions
(`static_cast<T2 -> T>`) are modelled by an explicit conversion function
`c : α → β` passed to the operations that perform them.
-/

namespace nuts
namespace math

/-- The C++ class `vector<T, Dimension>`: `Dimension` contiguous scalar slots
of type `T`, backed by `std::array<T, Dimension> data_`. -/
structure vector (α : Type) (n : Nat) where
  data_ : List α
  len_eq : data_.length = n
deriving DecidableEq

namespace vector

@[ext]
theorem ext {α : Type} {n : Nat} {v w : vector α n}
    (h : v.data_ = w.data_) : v = w := by
  cases v; cases w; simp_all

/-- `operator[]` (read): `assert(index < Dimension); return data_[index];`.
The assertion becomes the bound hypothesis `h`. -/
def get {α : Type} {n : Nat} (v : vector α n) (i : Nat) (h : i < n) : α :=
  v.data_.get ⟨i, by rw [v.len_eq]; exact h⟩

/-- `operator[]` (write): `assert(index < Dimension); data_[index] = x;`. -/
def set {α : Type} {n : Nat} (v : vector α n) (i : Nat) (x : α) : vector α n :=
  ⟨v.data_.set i x, by rw [List.length_set]; exact v.len_eq⟩

/-- The templated `vector& operator=(const vector<T2, Dimension2>& other)`
(enable_if `Dimension2 <= Dimension`):
`if (this == (const vector*)&other) return *this;` then
`transform(other.begin(), other.end(), data_.begin(), static_cast<T>)`
followed by `fill(it, data_.end(), static_cast<T>(0))`.
`sameObject` models the pointer-identity test `this == &other`;
`c` models `static_cast<T2 -> T>`; `h` models the `enable_if`. -/
def assignOp {α β : Type} [Zero β] {n m : Nat} (sameObject : Bool) (c : α → β)
    (self : vector β n) (other : vector α m) (h : m ≤ n) : vector β n :=
  match sameObject with
  | true => self
  | false =>
    ⟨other.data_.map c ++ List.replicate (n - m) (0 : β), by
      simp only [List.length_append, List.length_map, List.length_replicate,
        other.len_eq]
      omega⟩

/-- The converting constructor
`template<T2, Dimension2> explicit vector(const vector<T2, Dimension2>& other) { *this = other; }`.
The freshly default-constructed `data_` is indeterminate; `uninit` stands for
that indeterminate storage.  The constructed object is a distinct object from
`other`, so the identity test in `operator=` is false. -/
def ctorFromVector {α β : Type} [Zero β] {n m : Nat} (uninit : vector β n)
    (c : α → β) (other : vector α m) (h : m ≤ n) : vector β n :=
  assignOp false c uninit other h

/-- The variadic constructor
`vector(Args&&... args) : data_{static_cast<T>(args)...}` with
`sizeof...(Args) == Dimension` enforced by `enable_if`.  The `n` supplied
arguments are packaged as a length-`n` sequence `args` of the source scalar
type; `c` models `static_cast`. -/
def ctorScalars {α β : Type} {n : Nat} (c : α → β) (args : vector α n) :
    vector β n :=
  ⟨args.data_.map c, by rw [List.length_map]; exact args.len_eq⟩

/-- `std::lexicographical_compare` over two element ranges, as used by
`std::array`'s `operator<`: walk both ranges; at the first position where the
elements differ, the smaller element decides; if the first range is exhausted
strictly before the second, the first range is smaller. -/
def listLexLt {α : Type} [LinearOrder α] : List α → List α → Bool
  | _, [] => false
  | [], _ :: _ => true
  | a :: as, b :: bs => if a < b then true else if b < a then false else listLexLt as bs

/-- `std::equal` over two element ranges of the same length, as used by
`std::array`'s `operator==`: elementwise equality. -/
def listEqB {α : Type} [DecidableEq α] : List α → List α → Bool
  | [], [] => true
  | [], _ :: _ => false
  | _ :: _, [] => false
  | a :: as, b :: bs => if a = b then listEqB as bs else false

/-- `bool operator<(const vector& other) const { return data_ < other.data_; }`
delegating to `std::array`'s lexicographic `operator<`. -/
def ltOp {α : Type} [LinearOrder α] {n : Nat} (v w : vector α n) : Bool :=
  listLexLt v.data_ w.data_

/-- `bool operator==(const vector& other) const { return data_ == other.data_; }`. -/
def eqOp {α : Type} [LinearOrder α] {n : Nat} (v w : vector α n) : Bool :=
  listEqB v.data_ w.data_

/-- `bool operator!=` via `std::array`: `!(lhs == rhs)`. -/
def neOp {α : Type} [LinearOrder α] {n : Nat} (v w : vector α n) : Bool :=
  !(eqOp v w)

/-- `bool operator>` via `std::array`: `rhs < lhs`. -/
def gtOp {α : Type} [LinearOrder α] {n : Nat} (v w : vector α n) : Bool :=
  ltOp w v

/-- `bool operator>=` via `std::array`: `!(lhs < rhs)`. -/
def geOp {α : Type} [LinearOrder α] {n : Nat} (v w : vector α n) : Bool :=
  !(ltOp v w)

/-- `bool operator<=` via `std::array`: `!(rhs < lhs)`. -/
def leOp {α : Type} [LinearOrder α] {n : Nat} (v w : vector α n) : Bool :=
  !(ltOp w v)

/-- `operator+(const vector<T2, Dimension>&)`: elementwise
`transform(..., val1 + val2)` into a fresh result vector (here for matching
scalar types, where the C++ result type `decltype(T + T2)` is `T` again). -/
def addOp {α : Type} [Add α] {n : Nat} (v w : vector α n) : vector α n :=
  ⟨List.zipWith (fun a b => a + b) v.data_ w.data_, by
    rw [List.length_zipWith, v.len_eq, w.len_eq, Nat.min_self]⟩

/-- `operator-(const vector<T2, Dimension>&)`: elementwise
`transform(..., val1 - val2)` into a fresh result vector. -/
def subOp {α : Type} [Sub α] {n : Nat} (v w : vector α n) : vector α n :=
  ⟨List.zipWith (fun a b => a - b) v.data_ w.data_, by
    rw [List.length_zipWith, v.len_eq, w.len_eq, Nat.min_self]⟩

/-- `operator*(const T2& val)`: elementwise `transform(..., val1 * val)` into
a fresh result vector. -/
def mulScalarOp {α : Type} [Mul α] {n : Nat} (v : vector α n) (s : α) :
    vector α n :=
  ⟨v.data_.map (fun a => a * s), by rw [List.length_map]; exact v.len_eq⟩

/-- `vector& operator+=(const vector& other) { *this = *this + other; return *this; }` —
the post-state of `*this` (the returned reference denotes this same object). -/
def addAssignOp {α : Type} [Add α] {n : Nat} (v w : vector α n) : vector α n :=
  addOp v w

/-- `vector& operator-=(const vector& other) { *this = *this - other; return *this; }`. -/
def subAssignOp {α : Type} [Sub α] {n : Nat} (v w : vector α n) : vector α n :=
  subOp v w

/-- `vector& operator*=(const_reference val) { *this = *this * val; return *this; }`. -/
def mulAssignOp {α : Type} [Mul α] {n : Nat} (v : vector α n) (s : α) :
    vector α n :=
  mulScalarOp v s

/-- `vector& operator-() const { *this = *this * -1; return *this; }` — as
written, the body overwrites the object's own storage with the scaled copy
and returns a reference to the object itself.  The pair is
(post-state of the object `v`, value seen through the returned reference);
both are the same object, so both components are the mutated contents. -/
def negOp {α : Type} [Mul α] [Neg α] [One α] {n : Nat} (v : vector α n) :
    vector α n × vector α n :=
  (mulScalarOp v (-1), mulScalarOp v (-1))

end vector

/-- The free function
`operator*(const T2& val, const vector<T, Dimension>& vec) { return vec * val; }`:
scalar on the left, delegating to the member scalar product. -/
def scalarMulLeft {α : Type} [Mul α] {n : Nat} (s : α) (v : vector α n) :
    vector α n :=
  vector.mulScalarOp v s

namespace detail

/-- One value fed to the chained comma-builder: a scalar, or a sub-vector
given by its element list (the C++ overload set of
`comma_init::operator,`). -/
inductive item (α : Type) where
  | scalar : α → item α
  | sub : List α → item α
deriving DecidableEq

/-- State of `detail::comma_initializer<T, Dimension>` (named `comma_init`
here): the target vector `vec_` (held by reference in C++; threaded as
explicit state) and the running fill position `index_`, starting at 0. -/
structure comma_init (β : Type) (n : Nat) where
  vec_ : vector β n
  index_ : Nat
deriving DecidableEq

/-- The scalar `operator,(T2&& val)`:
`assert(index_ < Dimension); vec_[index_] = static_cast<T>(val); ++index_;`.
A failed assertion is modelled as `none`. -/
def appendScalar {α β : Type} {n : Nat} (c : α → β) (b : comma_init β n)
    (v : α) : Option (comma_init β n) :=
  if b.index_ < n then some ⟨b.vec_.set b.index_ (c v), b.index_ + 1⟩
  else none

/-- The sub-vector `operator,(const vector<T2, Dimension2>&)`:
`for (auto& elem : other) { *this, elem; }` — one scalar append per element
of the sub-vector, in index order. -/
def appendList {α β : Type} {n : Nat} (c : α → β) (b : comma_init β n) :
    List α → Option (comma_init β n)
  | [] => some b
  | v :: vs =>
    match appendScalar c b v with
    | none => none
    | some b2 => appendList c b2 vs

/-- Dispatch of one chained `operator,` argument to the matching overload. -/
def appendItem {α β : Type} {n : Nat} (c : α → β) (b : comma_init β n) :
    item α → Option (comma_init β n)
  | item.scalar v => appendScalar c b v
  | item.sub vs => appendList c b vs

/-- A whole chain of `operator,` calls applied left to right. -/
def runItems {α β : Type} {n : Nat} (c : α → β) (b : comma_init β n) :
    List (item α) → Option (comma_init β n)
  | [] => some b
  | it :: its =>
    match appendItem c b it with
    | none => none
    | some b2 => runItems c b2 its

/-- The constructor `comma_initializer(vector& vec, T2&& val)`: binds `vec_`
to `vec`, `index_` starts at 0, then immediately runs `*this, val`. -/
def startBuild {α β : Type} {n : Nat} (c : α → β) (vec : vector β n)
    (first : item α) : Option (comma_init β n) :=
  appendItem c ⟨vec, 0⟩ first

/-- The destructor `~comma_initializer() { assert(index_ == Dimension); }`:
`true` iff the assertion passes. -/
def dtorCheck {β : Type} {n : Nat} (b : comma_init β n) : Bool :=
  b.index_ == n

/-- The whole build expression through the by-reference entry point
`operator<<(vector<T, Dimension>& vec, T2&& val)`: start the builder on the
caller's vector and run every further chained value.  On success the
caller's vector holds the resulting `vec_`. -/
def runChainByRef {α β : Type} {n : Nat} (c : α → β) (caller : vector β n)
    (first : item α) (rest : List (item α)) : Option (comma_init β n) :=
  match startBuild c caller first with
  | none => none
  | some b => runItems c b rest

/-- The whole build expression through the by-VALUE entry point
`operator<<(vector<T, Dimension> vec, vector<T2, Dimension2>&& other)`:
`vec` is a pass-by-value copy of the caller's vector, so the builder binds
that copy; the caller's variable is never passed by reference and is
returned unchanged in the first component, next to the builder over the
copy. -/
def runChainByValue {α β : Type} {n : Nat} (c : α → β) (caller : vector β n)
    (firstSub : List α) (rest : List (item α)) :
    vector β n × Option (comma_init β n) :=
  (caller, runChainByRef c caller (item.sub firstSub) rest)

/-- The scalar stream an item chain expands to: sub-vectors splice their
elements in order. -/
def flattenItems {α : Type} : List (item α) → List α
  | [] => []
  | item.scalar v :: rest => v :: flattenItems rest
  | item.sub vs :: rest => vs ++ flattenItems rest

/-- Writing a list of values into consecutive slots starting at `j`
(the cumulative effect of consecutive scalar appends). -/
def writeSeq {β : Type} {n : Nat} : vector β n → Nat → List β → vector β n
  | v, _, [] => v
  | v, j, x :: xs => writeSeq (v.set j x) (j + 1) xs

end detail

end math
end nuts

section ListHelpers

/-- Element of `l1 ++ l2` left of the split. -/
theorem list_get_append_left {α : Type} (l1 l2 : List α) (i : Nat)
    (h : i < l1.length) (h2 : i < (l1 ++ l2).length) :
    (l1 ++ l2).get ⟨i, h2⟩ = l1.get ⟨i, h⟩ := by
  induction l1 generalizing i with
  | nil => exact absurd h (Nat.not_lt_zero i)
  | cons a l ih =>
    cases i with
    | zero => rfl
    | succ j =>
      simp only [List.cons_append, List.get]
      exact ih j (Nat.lt_of_succ_lt_succ h) _

/-- Element of `l1 ++ l2` right of the split. -/
theorem list_get_append_right {α : Type} (l1 l2 : List α) (i : Nat)
    (h : l1.length ≤ i) (h2 : i < (l1 ++ l2).length)
    (h3 : i - l1.length < l2.length) :
    (l1 ++ l2).get ⟨i, h2⟩ = l2.get ⟨i - l1.length, h3⟩ := by
  induction l1 generalizing i with
  | nil => simp
  | cons a l ih =>
    cases i with
    | zero => exact absurd h (by simp)
    | succ j =>
      simp only [List.cons_append, List.get, List.length_cons]
      have := ih j (Nat.le_of_succ_le_succ h)
        (by simpa [Nat.succ_lt_succ_iff] using h2)
        (by simpa [Nat.succ_sub_succ] using h3)
      simpa [Nat.succ_sub_succ] using this

/-- Element of `l.map f`. -/
theorem list_get_map {α β : Type} (f : α → β) (l : List α) (i : Nat)
    (h : i < (l.map f).length) (h2 : i < l.length) :
    (l.map f).get ⟨i, h⟩ = f (l.get ⟨i, h2⟩) := by
  induction l generalizing i with
  | nil => exact absurd h2 (Nat.not_lt_zero i)
  | cons a l ih =>
    cases i with
    | zero => rfl
    | succ j => exact ih j _ (Nat.lt_of_succ_lt_succ h2)

/-- Element of `List.replicate`. -/
theorem list_get_replicate {α : Type} (x : α) (k i : Nat)
    (h : i < (List.replicate k x).length) :
    (List.replicate k x).get ⟨i, h⟩ = x := by
  induction k generalizing i with
  | zero => exact absurd h (by simp)
  | succ j ih =>
    cases i with
    | zero => rfl
    | succ i' => exact ih i' (by simpa [Nat.succ_lt_succ_iff] using h)

end ListHelpers

open nuts.math

/-- **C1.** For every source `vector<T2, N2>` with `N2 ≤ N` and `T2`
convertible to `T`, assigning it into (or constructing from it) a
`vector<T, N>` sets the first `N2` elements to the converted source elements
in order and every remaining element (indices `N2 .. N-1`) to `T`'s zero
value — through both the assignment operator (distinct objects) and the
converting constructor. -/
theorem C1_convert_assign_zero_fill {α β : Type} [Zero β] {n m : Nat}
    (c : α → β) (self uninit : vector β n) (other : vector α m) (h : m ≤ n)
    (i : Nat) (hi : i < n) :
    (∀ (him : i < m),
        (vector.assignOp false c self other h).get i hi = c (other.get i him) ∧
        (vector.ctorFromVector uninit c other h).get i hi = c (other.get i him)) ∧
    (m ≤ i →
        (vector.assignOp false c self other h).get i hi = 0 ∧
        (vector.ctorFromVector uninit c other h).get i hi = 0) := by
  have key1 : ∀ (s : vector β n) (him : i < m),
      (vector.assignOp false c s other h).get i hi = c (other.get i him) := by
    intro s him
    unfold vector.assignOp vector.get
    rw [list_get_append_left _ _ i (by rw [List.length_map, other.len_eq]; exact him)]
    exact list_get_map c other.data_ i _ (by rw [other.len_eq]; exact him)
  have key2 : ∀ (s : vector β n), m ≤ i →
      (vector.assignOp false c s other h).get i hi = 0 := by
    intro s him
    unfold vector.assignOp vector.get
    rw [list_get_append_right _ _ i
      (by rw [List.length_map, other.len_eq]; exact him)
      _
      (by rw [List.length_map, List.length_replicate, other.len_eq]; omega)]
    exact list_get_replicate _ _ _ _
  exact ⟨fun him => ⟨key1 self him, key1 uninit him⟩,
    fun him => ⟨key2 self him, key2 uninit him⟩⟩

/-- Witness for C1: assigning `vector<int,2>(1,2)` into a `vector<int,3>`
(previous contents `(9,9,9)`) sets slot 0 to the converted source element
and fills slot 2 with zero; same through the constructor. -/
theorem C1_convert_assign_zero_fill_witness :
    ((vector.assignOp false id (⟨[9, 9, 9], rfl⟩ : vector Int 3)
        (⟨[1, 2], rfl⟩ : vector Int 2) (by decide)).get 0 (by decide) =
        id ((⟨[1, 2], rfl⟩ : vector Int 2).get 0 (by decide)) ∧
      (vector.ctorFromVector (⟨[7, 7, 7], rfl⟩ : vector Int 3) id
        (⟨[1, 2], rfl⟩ : vector Int 2) (by decide)).get 0 (by decide) =
        id ((⟨[1, 2], rfl⟩ : vector Int 2).get 0 (by decide))) ∧
    ((vector.assignOp false id (⟨[9, 9, 9], rfl⟩ : vector Int 3)
        (⟨[1, 2], rfl⟩ : vector Int 2) (by decide)).get 2 (by decide) = 0 ∧
      (vector.ctorFromVector (⟨[7, 7, 7], rfl⟩ : vector Int 3) id
        (⟨[1, 2], rfl⟩ : vector Int 2) (by decide)).get 2 (by decide) = 0) :=
  ⟨(C1_convert_assign_zero_fill id ⟨[9, 9, 9], rfl⟩ ⟨[7, 7, 7], rfl⟩
      ⟨[1, 2], rfl⟩ (by decide) 0 (by decide)).1 (by decide),
    (C1_convert_assign_zero_fill id ⟨[9, 9, 9], rfl⟩ ⟨[7, 7, 7], rfl⟩
      ⟨[1, 2], rfl⟩ (by decide) 2 (by decide)).2 (by decide)⟩

/-- **C5.** Self-assignment through the cross-type/cross-dimension
assignment path (`T2 == T`, `N2 == N`, source and target the same object) is
short-circuited by the pointer-identity test and leaves every element
unchanged. -/
theorem C5_self_assign_noop {α : Type} [Zero α] {n : Nat} (v : vector α n) :
    vector.assignOp true id v v (Nat.le_refl n) = v ∧
    ∀ (i : Nat) (hi : i < n),
      (vector.assignOp true id v v (Nat.le_refl n)).get i hi = v.get i hi :=
  ⟨rfl, fun _ _ => rfl⟩

/-- Witness for C5: self-assigning `vector<int,2>(3,4)` leaves it at `(3,4)`. -/
theorem C5_self_assign_noop_witness :
    vector.assignOp true id (⟨[3, 4], rfl⟩ : vector Int 2) ⟨[3, 4], rfl⟩
        (Nat.le_refl 2) = ⟨[3, 4], rfl⟩ ∧
    (vector.assignOp true id (⟨[3, 4], rfl⟩ : vector Int 2) ⟨[3, 4], rfl⟩
        (Nat.le_refl 2)).get 0 (by decide) =
      (⟨[3, 4], rfl⟩ : vector Int 2).get 0 (by decide) :=
  ⟨(C5_self_assign_noop ⟨[3, 4], rfl⟩).1,
    (C5_self_assign_noop ⟨[3, 4], rfl⟩).2 0 (by decide)⟩

/-- **C6.** Constructing a `vector<T, N>` from exactly `N` supplied values and
reading element `i` by index returns the `i`-th supplied value converted to
`T`, for every `i < N`. -/
theorem C6_ctor_scalars_get {α β : Type} {n : Nat} (c : α → β)
    (args : vector α n) (i : Nat) (hi : i < n) :
    (vector.ctorScalars c args).get i hi = c (args.get i hi) := by
  unfold vector.ctorScalars vector.get
  exact list_get_map c args.data_ i _ _

/-- Witness for C6: `vector<int,3>(10,20,30)[1] = 20`. -/
theorem C6_ctor_scalars_get_witness :
    (vector.ctorScalars (fun x : Int => x) ⟨[10, 20, 30], rfl⟩).get 1
        (by decide) =
      (fun x : Int => x) ((⟨[10, 20, 30], rfl⟩ : vector Int 3).get 1 (by decide)) :=
  C6_ctor_scalars_get (fun x : Int => x) ⟨[10, 20, 30], rfl⟩ 1 (by decide)

/-- The code's recursive lexicographic-compare agrees with Mathlib's
`List.Lex (· < ·)`. -/
theorem listLexLt_iff_lex {α : Type} [LinearOrder α] (l1 l2 : List α) :
    vector.listLexLt l1 l2 = true ↔ List.Lex (· < ·) l1 l2 := by
  induction l1 generalizing l2 with
  | nil =>
    cases l2 with
    | nil =>
      simp only [vector.listLexLt]
      constructor
      · intro hh; exact absurd hh (by simp)
      · intro hh; exact absurd hh (List.Lex.not_nil_right _ _)
    | cons b bs =>
      simp only [vector.listLexLt]
      exact ⟨fun _ => List.Lex.nil, fun _ => trivial⟩
  | cons a as ih =>
    cases l2 with
    | nil =>
      simp only [vector.listLexLt]
      constructor
      · intro hh; exact absurd hh (by simp)
      · intro hh; exact absurd hh (List.Lex.not_nil_right _ _)
    | cons b bs =>
      rcases lt_trichotomy a b with hab | hab | hab
      · constructor
        · intro _; exact List.Lex.rel hab
        · intro _; simp [vector.listLexLt, hab]
      · subst hab
        rw [show vector.listLexLt (a :: as) (a :: bs) = vector.listLexLt as bs
          from by simp [vector.listLexLt]]
        rw [ih]
        exact Iff.symm List.Lex.cons_iff
      · have h1 : ¬ a < b := lt_asymm hab
        constructor
        · intro hfalse
          rw [show vector.listLexLt (a :: as) (b :: bs) = false
            from by simp [vector.listLexLt, h1, hab]] at hfalse
          exact absurd hfalse (by simp)
        · intro hlex
          cases hlex with
          | cons h => exact absurd hab (lt_irrefl _)
          | rel h => exact absurd h h1

/-- The code's elementwise-equality agrees with list equality. -/
theorem listEqB_iff {α : Type} [DecidableEq α] (l1 l2 : List α) :
    vector.listEqB l1 l2 = true ↔ l1 = l2 := by
  induction l1 generalizing l2 with
  | nil => cases l2 <;> simp [vector.listEqB]
  | cons a as ih =>
    cases l2 with
    | nil => simp [vector.listEqB]
    | cons b bs =>
      by_cases hab : a = b
      · subst hab; simp [vector.listEqB, ih]
      · simp [vector.listEqB, hab]

/-- Totality of the lexicographic compare on equal-length lists: the reverse
comparison is false exactly when the forward comparison holds or the lists
are equal. -/
theorem not_listLexLt_iff {α : Type} [LinearOrder α] (l1 l2 : List α)
    (h : l1.length = l2.length) :
    vector.listLexLt l2 l1 = false ↔
      (vector.listLexLt l1 l2 = true ∨ l1 = l2) := by
  induction l1 generalizing l2 with
  | nil =>
    cases l2 with
    | nil => simp [vector.listLexLt]
    | cons b bs => simp at h
  | cons a as ih =>
    cases l2 with
    | nil => simp at h
    | cons b bs =>
      have hlen : as.length = bs.length := by simpa using h
      rcases lt_trichotomy a b with hab | hab | hab
      · simp [vector.listLexLt, hab, lt_asymm hab]
      · subst hab
        simp [vector.listLexLt, lt_irrefl, ih bs hlen]
      · simp [vector.listLexLt, hab, lt_asymm hab, ne_of_gt hab]

/-- **C7.** For every pair of same-type, same-dimension vectors the six
comparison operators decide the lexicographic order on the element sequences
(element 0 most significant): `<` is lexicographic-less, `==` is equality,
`!=` its negation, `>` the reversed lexicographic-less, `<=` and `>=` the
respective reflexive closures; in particular
`vector2i(1,5) < vector2i(2,0)` and `vector2i(1,5) < vector2i(1,6)`. -/
theorem C7_comparisons_lexicographic {α : Type} [LinearOrder α] {n : Nat}
    (v w : vector α n) :
    (vector.ltOp v w = true ↔ List.Lex (· < ·) v.data_ w.data_) ∧
    (vector.eqOp v w = true ↔ v = w) ∧
    (vector.neOp v w = true ↔ v ≠ w) ∧
    (vector.gtOp v w = true ↔ List.Lex (· < ·) w.data_ v.data_) ∧
    (vector.leOp v w = true ↔
      (List.Lex (· < ·) v.data_ w.data_ ∨ v = w)) ∧
    (vector.geOp v w = true ↔
      (List.Lex (· < ·) w.data_ v.data_ ∨ v = w)) ∧
    vector.ltOp (⟨[1, 5], rfl⟩ : vector Int 2) ⟨[2, 0], rfl⟩ = true ∧
    vector.ltOp (⟨[1, 5], rfl⟩ : vector Int 2) ⟨[1, 6], rfl⟩ = true := by
  have hlen : v.data_.length = w.data_.length := by rw [v.len_eq, w.len_eq]
  have hveq : v.data_ = w.data_ ↔ v = w := by
    constructor
    · intro hh; exact vector.ext hh
    · intro hh; rw [hh]
  refine ⟨listLexLt_iff_lex _ _, ?_, ?_, listLexLt_iff_lex _ _, ?_, ?_,
    by decide, by decide⟩
  · rw [vector.eqOp, listEqB_iff, hveq]
  · rw [vector.neOp]
    rw [Bool.not_eq_true', ← Bool.not_eq_true]
    rw [vector.eqOp, listEqB_iff, hveq]
  · rw [vector.leOp, Bool.not_eq_true']
    rw [show vector.ltOp w v = vector.listLexLt w.data_ v.data_ from rfl]
    rw [not_listLexLt_iff _ _ hlen]
    rw [show vector.listLexLt v.data_ w.data_ = true ↔
      List.Lex (fun a b => a < b) v.data_ w.data_ from listLexLt_iff_lex _ _]
    rw [hveq]
  · rw [vector.geOp, Bool.not_eq_true']
    rw [show vector.ltOp v w = vector.listLexLt v.data_ w.data_ from rfl]
    rw [not_listLexLt_iff _ _ hlen.symm]
    rw [show vector.listLexLt w.data_ v.data_ = true ↔
      List.Lex (fun a b => a < b) w.data_ v.data_ from listLexLt_iff_lex _ _]
    rw [show w.data_ = v.data_ ↔ w = v from by
      constructor
      · intro hh; exact vector.ext hh
      · intro hh; rw [hh]]
    rw [eq_comm]

/-- Element of `List.zipWith`. -/
theorem list_get_zipWith {α β γ : Type} (f : α → β → γ) (l1 : List α)
    (l2 : List β) (i : Nat) (h : i < (List.zipWith f l1 l2).length)
    (h1 : i < l1.length) (h2 : i < l2.length) :
    (List.zipWith f l1 l2).get ⟨i, h⟩ = f (l1.get ⟨i, h1⟩) (l2.get ⟨i, h2⟩) := by
  induction l1 generalizing l2 i with
  | nil => exact absurd h1 (Nat.not_lt_zero i)
  | cons a as ih =>
    cases l2 with
    | nil => exact absurd h2 (Nat.not_lt_zero i)
    | cons b bs =>
      cases i with
      | zero => rfl
      | succ j =>
        exact ih bs j _ (Nat.lt_of_succ_lt_succ h1) (Nat.lt_of_succ_lt_succ h2)

/-- **C4 (counter-evidence for the stated purity).** The unary negation as
written (`*this = *this * -1; return *this;`) mutates the operand: at the
concrete input `vector<int,2>(1,2)` the post-state of the operand is
`(-1,-2)`, which differs from the original `(1,2)`, and the returned
reference denotes that same mutated object — no fresh value is produced. -/
theorem C4_negation_mutates_operand :
    (vector.negOp (⟨[1, 2], rfl⟩ : vector Int 2)).1 = ⟨[-1, -2], rfl⟩ ∧
    (vector.negOp (⟨[1, 2], rfl⟩ : vector Int 2)).1 ≠ ⟨[1, 2], rfl⟩ ∧
    (vector.negOp (⟨[1, 2], rfl⟩ : vector Int 2)).2 =
      (vector.negOp (⟨[1, 2], rfl⟩ : vector Int 2)).1 := by
  refine ⟨?_, ?_, rfl⟩
  · apply vector.ext; simp [vector.negOp, vector.mulScalarOp]
  · intro hh
    have h2 := congrArg vector.data_ hh
    simp [vector.negOp, vector.mulScalarOp] at h2

/-- **C8.** The compound assignments `+=`, `-=`, `*=` leave the target in
exactly the state obtained by assigning the corresponding non-mutating
result (`a + b`, `a - b`, `a * s`) back into it (the returned reference
denotes that post-state), with the expected elementwise values. -/
theorem C8_compound_assign_equiv {α : Type} [Add α] [Sub α] [Mul α] {n : Nat}
    (a b : vector α n) (s : α) (i : Nat) (hi : i < n) :
    vector.addAssignOp a b = vector.addOp a b ∧
    vector.subAssignOp a b = vector.subOp a b ∧
    vector.mulAssignOp a s = vector.mulScalarOp a s ∧
    (vector.addAssignOp a b).get i hi = a.get i hi + b.get i hi ∧
    (vector.subAssignOp a b).get i hi = a.get i hi - b.get i hi ∧
    (vector.mulAssignOp a s).get i hi = a.get i hi * s := by
  refine ⟨rfl, rfl, rfl, ?_, ?_, ?_⟩
  · unfold vector.addAssignOp vector.addOp vector.get
    exact list_get_zipWith _ _ _ i _ (by rw [a.len_eq]; exact hi)
      (by rw [b.len_eq]; exact hi)
  · unfold vector.subAssignOp vector.subOp vector.get
    exact list_get_zipWith _ _ _ i _ (by rw [a.len_eq]; exact hi)
      (by rw [b.len_eq]; exact hi)
  · unfold vector.mulAssignOp vector.mulScalarOp vector.get
    exact list_get_map _ _ i _ (by rw [a.len_eq]; exact hi)

/-- Witness for C8 at `a = (1,2)`, `b = (10,20)`, `s = 3`, `i = 1`:
`a += b` yields slot 1 = 22, `a -= b` slot 1 = -18, `a *= 3` slot 1 = 6. -/
theorem C8_compound_assign_equiv_witness :
    vector.addAssignOp (⟨[1, 2], rfl⟩ : vector Int 2) ⟨[10, 20], rfl⟩ =
      vector.addOp ⟨[1, 2], rfl⟩ ⟨[10, 20], rfl⟩ ∧
    vector.subAssignOp (⟨[1, 2], rfl⟩ : vector Int 2) ⟨[10, 20], rfl⟩ =
      vector.subOp ⟨[1, 2], rfl⟩ ⟨[10, 20], rfl⟩ ∧
    vector.mulAssignOp (⟨[1, 2], rfl⟩ : vector Int 2) 3 =
      vector.mulScalarOp ⟨[1, 2], rfl⟩ 3 ∧
    (vector.addAssignOp (⟨[1, 2], rfl⟩ : vector Int 2) ⟨[10, 20], rfl⟩).get 1
        (by decide) =
      (⟨[1, 2], rfl⟩ : vector Int 2).get 1 (by decide) +
        (⟨[10, 20], rfl⟩ : vector Int 2).get 1 (by decide) ∧
    (vector.subAssignOp (⟨[1, 2], rfl⟩ : vector Int 2) ⟨[10, 20], rfl⟩).get 1
        (by decide) =
      (⟨[1, 2], rfl⟩ : vector Int 2).get 1 (by decide) -
        (⟨[10, 20], rfl⟩ : vector Int 2).get 1 (by decide) ∧
    (vector.mulAssignOp (⟨[1, 2], rfl⟩ : vector Int 2) 3).get 1 (by decide) =
      (⟨[1, 2], rfl⟩ : vector Int 2).get 1 (by decide) * 3 :=
  C8_compound_assign_equiv ⟨[1, 2], rfl⟩ ⟨[10, 20], rfl⟩ 3 1 (by decide)

/-- **C9.** The scalar-on-the-left product delegates to the
scalar-on-the-right product and therefore agrees with it elementwise; in
particular `vector3i(1,2,3) * 2` and `2 * vector3i(1,2,3)` both produce
`(2,4,6)` (exact also for the spec's `vector3d` doubles, where these small
integer values and products are exactly representable). -/
theorem C9_scalar_left_mul {α : Type} [Mul α] {n : Nat} (s : α)
    (v : vector α n) (i : Nat) (hi : i < n) :
    scalarMulLeft s v = vector.mulScalarOp v s ∧
    (scalarMulLeft s v).get i hi = v.get i hi * s ∧
    scalarMulLeft (2 : Int) (⟨[1, 2, 3], rfl⟩ : vector Int 3) =
      ⟨[2, 4, 6], rfl⟩ ∧
    vector.mulScalarOp (⟨[1, 2, 3], rfl⟩ : vector Int 3) 2 =
      ⟨[2, 4, 6], rfl⟩ := by
  refine ⟨rfl, ?_, by decide, by decide⟩
  unfold scalarMulLeft vector.mulScalarOp vector.get
  exact list_get_map _ _ i _ (by rw [v.len_eq]; exact hi)

/-- Witness for C9 at `s = 5`, `v = (7,8)`, `i = 0`: `5 * v` slot 0 = 35. -/
theorem C9_scalar_left_mul_witness :
    scalarMulLeft (5 : Int) (⟨[7, 8], rfl⟩ : vector Int 2) =
      vector.mulScalarOp ⟨[7, 8], rfl⟩ 5 ∧
    (scalarMulLeft (5 : Int) (⟨[7, 8], rfl⟩ : vector Int 2)).get 0
        (by decide) =
      (⟨[7, 8], rfl⟩ : vector Int 2).get 0 (by decide) * 5 ∧
    scalarMulLeft (2 : Int) (⟨[1, 2, 3], rfl⟩ : vector Int 3) =
      ⟨[2, 4, 6], rfl⟩ ∧
    vector.mulScalarOp (⟨[1, 2, 3], rfl⟩ : vector Int 3) 2 =
      ⟨[2, 4, 6], rfl⟩ :=
  C9_scalar_left_mul 5 ⟨[7, 8], rfl⟩ 0 (by decide)

/-- `getD` agrees with `get` inside bounds. -/
theorem list_getD_eq_get {α : Type} (l : List α) (i : Nat) (h : i < l.length)
    (d : α) : l.getD i d = l.get ⟨i, h⟩ := by
  induction l generalizing i with
  | nil => exact absurd h (Nat.not_lt_zero i)
  | cons a as ih =>
    cases i with
    | zero => rfl
    | succ j => exact ih j (Nat.lt_of_succ_lt_succ h)

/-- `getD` after `set` at the written slot. -/
theorem list_getD_set_eq {α : Type} (l : List α) (j : Nat) (x d : α)
    (hj : j < l.length) : (l.set j x).getD j d = x := by
  induction l generalizing j with
  | nil => exact absurd hj (Nat.not_lt_zero j)
  | cons a as ih =>
    cases j with
    | zero => rfl
    | succ j' => exact ih j' (Nat.lt_of_succ_lt_succ hj)

/-- `getD` after `set` at a different slot. -/
theorem list_getD_set_ne {α : Type} (l : List α) (j i : Nat) (x d : α)
    (hne : i ≠ j) : (l.set j x).getD i d = l.getD i d := by
  induction l generalizing i j with
  | nil => rfl
  | cons a as ih =>
    cases j with
    | zero =>
      cases i with
      | zero => exact absurd rfl hne
      | succ i' => rfl
    | succ j' =>
      cases i with
      | zero => rfl
      | succ i' => exact ih j' i' (fun hh => hne (congrArg Nat.succ hh))

/-- Bridge from the bounds-checked accessor to the total one. -/
theorem vector_get_eq_getD {α : Type} {n : Nat} (v : vector α n) (i : Nat)
    (h : i < n) (d : α) : v.get i h = v.data_.getD i d := by
  unfold vector.get
  exact (list_getD_eq_get _ _ _ d).symm

/-- Slots left of a block write are untouched. -/
theorem writeSeq_getD_lt {β : Type} {n : Nat} (l : List β) (v : vector β n)
    (j i : Nat) (d : β) (hij : i < j) :
    (detail.writeSeq v j l).data_.getD i d = v.data_.getD i d := by
  induction l generalizing v j with
  | nil => rfl
  | cons x xs ih =>
    simp only [detail.writeSeq]
    rw [ih (v.set j x) (j + 1) (Nat.lt_succ_of_lt hij)]
    exact list_getD_set_ne _ _ _ _ _ (Nat.ne_of_lt hij)

/-- Slot `j + k` after writing a block of values at `j` holds the `k`-th
written value. -/
theorem writeSeq_getD_at {β : Type} {n : Nat} (l : List β) (v : vector β n)
    (j k : Nat) (d : β) (hjk : j + l.length ≤ n) (hk : k < l.length) :
    (detail.writeSeq v j l).data_.getD (j + k) d = l.getD k d := by
  induction l generalizing v j k with
  | nil => exact absurd hk (Nat.not_lt_zero k)
  | cons x xs ih =>
    simp only [detail.writeSeq]
    cases k with
    | zero =>
      have h1 : (detail.writeSeq (v.set j x) (j + 1) xs).data_.getD (j + 0) d
          = (v.set j x).data_.getD (j + 0) d :=
        writeSeq_getD_lt xs (v.set j x) (j + 1) (j + 0) d (by omega)
      rw [h1]
      show (v.data_.set j x).getD (j + 0) d = (x :: xs).getD 0 d
      rw [show j + 0 = j from Nat.add_zero j]
      exact list_getD_set_eq v.data_ j x d
        (by rw [v.len_eq]; simp at hjk; omega)
    | succ k' =>
      rw [show j + (k' + 1) = (j + 1) + k' from by omega]
      rw [ih (v.set j x) (j + 1) k' (by simp at hjk; omega)
        (Nat.lt_of_succ_lt_succ hk)]
      rfl

/-- Reading a block write that covers the whole vector (start 0, full
length). -/
theorem writeSeq_full_get {β : Type} {n : Nat} (l : List β)
    (target : vector β n) (hlen : l.length = n) (i : Nat) (hi : i < n) :
    (detail.writeSeq target 0 l).get i hi = l.get ⟨i, by rw [hlen]; exact hi⟩ := by
  rw [vector_get_eq_getD _ i hi (l.get ⟨i, by rw [hlen]; exact hi⟩)]
  have hat := writeSeq_getD_at l target 0 i (l.get ⟨i, by rw [hlen]; exact hi⟩)
    (by omega) (by rw [hlen]; exact hi)
  rw [Nat.zero_add] at hat
  rw [hat]
  exact list_getD_eq_get l i _ _

/-- The scalar append succeeds below the fill bound. -/
theorem appendScalar_of_lt {α β : Type} {n : Nat} (c : α → β)
    (b : detail.comma_init β n) (v : α) (h : b.index_ < n) :
    detail.appendScalar c b v =
      some ⟨b.vec_.set b.index_ (c v), b.index_ + 1⟩ := by
  simp [detail.appendScalar, h]

/-- Appending a list of scalars that fits below the fill bound writes them
into consecutive slots and advances the index by the list length. -/
theorem appendList_spec {α β : Type} {n : Nat} (c : α → β) (vs : List α)
    (b : detail.comma_init β n) (h : b.index_ + vs.length ≤ n) :
    detail.appendList c b vs =
      some ⟨detail.writeSeq b.vec_ b.index_ (vs.map c),
        b.index_ + vs.length⟩ := by
  induction vs generalizing b with
  | nil => simp [detail.appendList, detail.writeSeq]
  | cons v vs ih =>
    have hlt : b.index_ < n := by simp at h; omega
    simp only [detail.appendList, appendScalar_of_lt c b v hlt]
    rw [ih ⟨b.vec_.set b.index_ (c v), b.index_ + 1⟩ (by simp; simp at h; omega)]
    simp only [List.map_cons, detail.writeSeq, Option.some.injEq,
      detail.comma_init.mk.injEq]
    refine ⟨trivial, ?_⟩
    simp only [List.length_cons]
    omega

/-- Scalar appends compose over list concatenation. -/
theorem appendList_append {α β : Type} {n : Nat} (c : α → β) (l1 l2 : List α)
    (b : detail.comma_init β n) :
    detail.appendList c b (l1 ++ l2) =
      (detail.appendList c b l1).bind (fun b2 => detail.appendList c b2 l2) := by
  induction l1 generalizing b with
  | nil => simp [detail.appendList]
  | cons v vs ih =>
    cases hs : detail.appendScalar c b v with
    | none => simp [detail.appendList, hs]
    | some b2 => simp [detail.appendList, hs, ih b2]

/-- Running an item chain is running its flattened scalar stream. -/
theorem runItems_eq_appendList {α β : Type} {n : Nat} (c : α → β)
    (its : List (detail.item α)) (b : detail.comma_init β n) :
    detail.runItems c b its =
      detail.appendList c b (detail.flattenItems its) := by
  induction its generalizing b with
  | nil => rfl
  | cons it rest ih =>
    cases it with
    | scalar v =>
      simp only [detail.runItems, detail.appendItem, detail.flattenItems,
        detail.appendList]
      cases hs : detail.appendScalar c b v with
      | none => rfl
      | some b2 => exact ih b2
    | sub vs =>
      simp only [detail.runItems, detail.appendItem, detail.flattenItems]
      rw [appendList_append]
      cases hs : detail.appendList c b vs with
      | none => rfl
      | some b2 => simp only [Option.bind_some]; exact ih b2

/-- The by-reference build chain is the item chain started at index 0. -/
theorem runChainByRef_eq_runItems {α β : Type} {n : Nat} (c : α → β)
    (target : vector β n) (first : detail.item α)
    (rest : List (detail.item α)) :
    detail.runChainByRef c target first rest =
      detail.runItems c ⟨target, 0⟩ (first :: rest) := by
  unfold detail.runChainByRef detail.startBuild
  cases hf : detail.appendItem c (⟨target, 0⟩ : detail.comma_init β n) first with
  | none => simp [detail.runItems, hf]
  | some b => simp [detail.runItems, hf]

/-- A by-reference build chain whose flattened stream has exactly `n` values
succeeds, ends at fill index `n`, and its target holds the stream written
from slot 0. -/
theorem runChainByRef_complete {α β : Type} {n : Nat} (c : α → β)
    (target : vector β n) (first : detail.item α)
    (rest : List (detail.item α))
    (h : (detail.flattenItems (first :: rest)).length = n) :
    detail.runChainByRef c target first rest =
      some ⟨detail.writeSeq target 0
        ((detail.flattenItems (first :: rest)).map c), n⟩ := by
  rw [runChainByRef_eq_runItems, runItems_eq_appendList]
  rw [appendList_spec c _ _ (by simp [h])]
  simp [h]

/-- **C2.** For every target `vector<T, N>` and every chained
comma-builder chain through the by-reference entry point whose flattened
scalar stream (each appended sub-vector spliced into the stream in index
order) has exactly `N` values, the build succeeds and assigns the `i`-th
supplied value, converted to `T`, into slot `i` of the target (`vec_` is the
caller's vector, held by reference), for all `i < N`. -/
theorem C2_builder_assigns_in_order {α β : Type} {n : Nat} (c : α → β)
    (target : vector β n) (first : detail.item α)
    (rest : List (detail.item α))
    (h : (detail.flattenItems (first :: rest)).length = n) :
    ∃ b, detail.runChainByRef c target first rest = some b ∧
      b.index_ = n ∧
      ∀ (i : Nat) (hi : i < n),
        b.vec_.get i hi =
          c ((detail.flattenItems (first :: rest)).get
            ⟨i, by rw [h]; exact hi⟩) := by
  refine ⟨⟨detail.writeSeq target 0
      ((detail.flattenItems (first :: rest)).map c), n⟩,
    runChainByRef_complete c target first rest h, rfl, ?_⟩
  intro i hi
  show (detail.writeSeq target 0
    ((detail.flattenItems (first :: rest)).map c)).get i hi = _
  rw [writeSeq_full_get _ target (by rw [List.length_map, h]) i hi]
  exact list_get_map c _ i _ (by rw [h]; exact hi)

/-- Witness for C2: `v << 1, vector(2,3)` into a `vector<int,3>` supplies
the stream `1,2,3` and fills slots 0,1,2 with those values. -/
theorem C2_builder_assigns_in_order_witness :
    ∃ b, detail.runChainByRef (fun x : Int => x)
        (⟨[0, 0, 0], rfl⟩ : vector Int 3) (detail.item.scalar 1)
        [detail.item.sub [2, 3]] = some b ∧
      b.index_ = 3 ∧
      ∀ (i : Nat) (hi : i < 3),
        b.vec_.get i hi =
          (fun x : Int => x)
            ((detail.flattenItems
                (detail.item.scalar 1 :: [detail.item.sub [2, 3]])).get
              ⟨i, by simp [detail.flattenItems]; omega⟩) :=
  C2_builder_assigns_in_order (fun x : Int => x) ⟨[0, 0, 0], rfl⟩
    (detail.item.scalar 1) [detail.item.sub [2, 3]]
    (by simp [detail.flattenItems])

/-- **C3.** The builder fails fast on arity violations: a scalar append at
fill index `N` fails its `assert(index_ < Dimension)`; destroying a builder
whose fill index is not `N` fails the destructor's
`assert(index_ == Dimension)`; and a build supplying exactly `N` values
triggers neither assertion (every append succeeds and the destructor check
passes). -/
theorem C3_builder_arity_assertions {α β : Type} {n : Nat} (c : α → β)
    (bful bbad : detail.comma_init β n) (v : α)
    (hful : bful.index_ = n) (hbad : bbad.index_ ≠ n)
    (target : vector β n) (first : detail.item α)
    (rest : List (detail.item α))
    (hn : (detail.flattenItems (first :: rest)).length = n) :
    detail.appendScalar c bful v = none ∧
    detail.dtorCheck bbad = false ∧
    (∃ b, detail.runChainByRef c target first rest = some b ∧
      detail.dtorCheck b = true) := by
  refine ⟨by simp [detail.appendScalar, hful], ?_, ?_⟩
  · simp only [detail.dtorCheck]
    simp [hbad]
  · exact ⟨⟨detail.writeSeq target 0
      ((detail.flattenItems (first :: rest)).map c), n⟩,
      runChainByRef_complete c target first rest hn,
      by simp [detail.dtorCheck]⟩

/-- Witness for C3 in `vector<int,2>`: an extra append onto a full builder
(index 2) fails, a builder disposed at index 1 fails the destructor check,
and the exact-arity build `v << 4, 5` passes both. -/
theorem C3_builder_arity_assertions_witness :
    detail.appendScalar (fun x : Int => x)
      (⟨⟨[4, 5], rfl⟩, 2⟩ : detail.comma_init Int 2) 6 = none ∧
    detail.dtorCheck (⟨⟨[4, 0], rfl⟩, 1⟩ : detail.comma_init Int 2) = false ∧
    (∃ b, detail.runChainByRef (fun x : Int => x)
        (⟨[0, 0], rfl⟩ : vector Int 2) (detail.item.scalar 4)
        [detail.item.scalar 5] = some b ∧
      detail.dtorCheck b = true) :=
  C3_builder_arity_assertions (fun x : Int => x) ⟨⟨[4, 5], rfl⟩, 2⟩
    ⟨⟨[4, 0], rfl⟩, 1⟩ 6 rfl (by decide) ⟨[0, 0], rfl⟩
    (detail.item.scalar 4) [detail.item.scalar 5]
    (by simp [detail.flattenItems])

/-- **C10.** Starting a builder chain through
`operator<<(vector<T, Dimension> vec, vector<T2, Dimension2>&& other)` — the
overload selected when the first appended value is an rvalue vector — binds
the builder to the pass-by-value copy of the target: the caller's vector is
returned unchanged by the entire build, while on a complete build the
supplied values land in the builder's copy. -/
theorem C10_rvalue_entry_binds_copy {α β : Type} {n : Nat} (c : α → β)
    (caller : vector β n) (firstSub : List α) (rest : List (detail.item α))
    (h : (detail.flattenItems (detail.item.sub firstSub :: rest)).length = n) :
    (detail.runChainByValue c caller firstSub rest).1 = caller ∧
    (∃ b, (detail.runChainByValue c caller firstSub rest).2 = some b ∧
      ∀ (i : Nat) (hi : i < n),
        b.vec_.get i hi =
          c ((detail.flattenItems (detail.item.sub firstSub :: rest)).get
            ⟨i, by rw [h]; exact hi⟩)) := by
  refine ⟨rfl, ⟨detail.writeSeq caller 0
      ((detail.flattenItems (detail.item.sub firstSub :: rest)).map c), n⟩,
    runChainByRef_complete c caller (detail.item.sub firstSub) rest h, ?_⟩
  intro i hi
  show (detail.writeSeq caller 0
    ((detail.flattenItems (detail.item.sub firstSub :: rest)).map c)).get i hi = _
  rw [writeSeq_full_get _ caller (by rw [List.length_map, h]) i hi]
  exact list_get_map c _ i _ (by rw [h]; exact hi)

/-- Witness for C10: `v << vector(1,2)` with `v = (8,9)` of size 2 leaves
the caller's vector at `(8,9)` while the copy bound by the builder receives
`(1,2)`. -/
theorem C10_rvalue_entry_binds_copy_witness :
    (detail.runChainByValue (fun x : Int => x) (⟨[8, 9], rfl⟩ : vector Int 2)
      [1, 2] []).1 = ⟨[8, 9], rfl⟩ ∧
    (∃ b, (detail.runChainByValue (fun x : Int => x)
        (⟨[8, 9], rfl⟩ : vector Int 2) [1, 2] []).2 = some b ∧
      ∀ (i : Nat) (hi : i < 2),
        b.vec_.get i hi =
          (fun x : Int => x)
            ((detail.flattenItems (detail.item.sub [1, 2] :: [])).get
              ⟨i, by simp [detail.flattenItems]; omega⟩)) :=
  C10_rvalue_entry_binds_copy (fun x : Int => x) ⟨[8, 9], rfl⟩ [1, 2] []
    (by simp [detail.flattenItems])
